import Mathlib

/-!
Shallow embedding of the multi-fidelity deep-GP benchmarking notebook
(emukit examples, benchmarking_examples.ipynb).

The notebook is glue code: a data generator (generate_data), a metric
calculator (calculate_metrics), a per-model benchmarking loop
(benchmark_models), a seed loop (do_benchmark / test_function) and table
printing (print_metrics).

External, stochastic or library-provided pieces are passed in as
parameters of the embedding:
  - the Latin hypercube sampler draws (the matrices returned by
    latin.get_samples) become explicit matrix arguments;
  - the per-iteration standard-normal draws np.random.randn(n, 1) become
    a function gs : iteration -> row -> real;
  - the test function list fcn.f becomes a list of functions, one per
    fidelity;
  - the four regression model wrappers become ModelBeh records whose
    optimize/predict may fail (Except), modelling Python exceptions.

Python index accesses that can raise IndexError (X[0], fcn.f[i],
fcn.f[-1], X[1]) are modelled with Option-returning lookups, so
generate_data returns an Option.
-/

set_option autoImplicit false

namespace MultiFidelityDgpBench

noncomputable section

/-- A row vector (one sample's coordinates, or one column of outputs). -/
abbrev Vec := List ℝ

/-- A 2-d numpy array, as a list of rows. -/
abbrev Mat := List (List ℝ)

/-- The namedtuple Function(name, y_scale, noise_level, do_x_scaling, num_data, fcn).
The fcn field (a factory returning the fidelity functions and the space) is
external; its fidelity functions are passed separately to generate_data. -/
structure Function where
  name : String
  y_scale : ℝ
  noise_level : List ℝ
  do_x_scaling : Bool
  num_data : List ℕ

/-- Elementwise division of a row by the scalings vector (numpy x /= scalings,
restricted to one row). -/
def vecDiv (v s : Vec) : Vec := List.zipWith (fun a b => a / b) v s

/-- Elementwise product of a row with the scalings vector (numpy x * scalings,
restricted to one row). -/
def vecMul (v s : Vec) : Vec := List.zipWith (fun a b => a * b) v s

/-- numpy x / scalings on a 2-d array: divide every row elementwise. -/
def matDivRows (m : Mat) (s : Vec) : Mat := m.map (fun r => vecDiv r s)

/-- numpy x * scalings on a 2-d array: multiply every row elementwise. -/
def matMulRows (m : Mat) (s : Vec) : Mat := m.map (fun r => vecMul r s)

/-- numpy mean of a 1-d array: sum divided by length. -/
def np_mean (l : List ℝ) : ℝ := l.sum / l.length

/-- Column j of a matrix (out-of-range entries default to 0; only used at
in-range indices). -/
def col (m : Mat) (j : ℕ) : Vec := m.map (fun r => r.getD j 0)

/-- numpy std of column j (population standard deviation, ddof = 0). -/
def npStdCol (m : Mat) (j : ℕ) : ℝ :=
  Real.sqrt (np_mean ((col m j).map (fun x => (x - np_mean (col m j)) ^ 2)))

/-- numpy m.std(axis=0): the per-column standard deviations, one entry per
column of the first row. -/
def npStdAxis0 (m : Mat) : Vec :=
  (List.range (m.headD []).length).map (npStdCol m)

/-- The scalings vector of generate_data: X[0].std(axis=0) when
do_x_scaling, otherwise np.ones(X[0].shape[1]). -/
def scalings (d : Function) (trainSamples : List Mat) : Vec :=
  if d.do_x_scaling then npStdAxis0 (trainSamples.headD [])
  else List.replicate ((trainSamples.headD []).headD []).length 1

/-- The loop building Y: for i, x in enumerate(X): Y.append(fcn.f[i](x * scalings)).
fcn.f[i] raises IndexError when i is out of range, hence the Option. -/
def buildY (fs : List (Mat → Vec)) (scal : Vec) : List Mat → ℕ → Option (List Vec)
  | [], _ => some []
  | x :: xs, i =>
    match fs.get? i with
    | none => none
    | some f =>
      match buildY fs scal xs (i + 1) with
      | none => none
      | some ys => some (f (matMulRows x scal) :: ys)

/-- The noise loop: for y, std_noise in zip(Y, noise_levels):
y /= y_scale + std_noise * np.random.randn(y.shape[0], 1).
zip truncates to the shorter list, leaving the remaining Y entries
untouched.  gs i k is the k-th standard-normal draw of iteration i. -/
def applyNoise (y_scale : ℝ) (gs : ℕ → ℕ → ℝ) :
    List Vec → List ℝ → ℕ → List Vec
  | ys, [], _ => ys
  | [], _ :: _, _ => []
  | y :: ys, σ :: σs, i =>
    (y.mapIdx fun k yk => yk / (y_scale + σ * gs i k)) :: applyNoise y_scale gs ys σs (i + 1)

/-- i_highest_fidelity = (len(num_data) - 1), the constant appended to every
test row (a Python int, here cast through ℤ to keep the empty-list case
faithful). -/
def i_highest_fidelity (d : Function) : ℝ :=
  (((d.num_data.length : ℤ) - 1 : ℤ) : ℝ)

/-- The result tuple of generate_data: (x_test, y_test, X, Y). -/
structure GenResult where
  x_test : Mat
  y_test : Vec
  X : List Mat
  Y : List Vec

/-- Body of generate_data up to (but excluding) the final print(X[1].shape).
trainSamples are the Latin hypercube draws [latin.get_samples(n) for n in
num_data]; xTestRaw is the draw latin.get_samples(n_test_points). -/
def generateDataCore (d : Function) (fs : List (Mat → Vec)) (trainSamples : List Mat)
    (gs : ℕ → ℕ → ℝ) (xTestRaw : Mat) : Option GenResult :=
  match trainSamples.get? 0 with
  | none => none
  | some _ =>
    match buildY fs (scalings d trainSamples)
        (trainSamples.map fun x => matDivRows x (scalings d trainSamples)) 0 with
    | none => none
    | some Yraw =>
      match fs.getLast? with
      | none => none
      | some fLast =>
        some { x_test := (matDivRows xTestRaw (scalings d trainSamples)).map
                 (fun row => row ++ [i_highest_fidelity d])
               y_test := (fLast (matMulRows (matDivRows xTestRaw (scalings d trainSamples))
                 (scalings d trainSamples))).map (fun y => y / d.y_scale)
               X := trainSamples.map fun x => matDivRows x (scalings d trainSamples)
               Y := applyNoise d.y_scale gs Yraw d.noise_level 0 }

/-- generate_data: the core body followed by print(X[1].shape), which
raises IndexError when there are fewer than two fidelity levels. -/
def generateData (d : Function) (fs : List (Mat → Vec)) (trainSamples : List Mat)
    (gs : ℕ → ℕ → ℝ) (xTestRaw : Mat) : Option GenResult :=
  match generateDataCore d fs trainSamples gs xTestRaw with
  | none => none
  | some r =>
    match r.X.get? 1 with
    | none => none
    | some _ => some r

/-- Three-list zipWith, for the elementwise broadcast of
scipy.stats.norm.logpdf(y_test, loc=y_mean, scale=...). -/
def zipWith3 {α β γ δ : Type} (f : α → β → γ → δ) : List α → List β → List γ → List δ
  | a :: as, b :: bs, c :: cs => f a b c :: zipWith3 f as bs cs
  | _, _, _ => []

/-- scipy.stats.norm.logpdf(x, loc, scale), as scipy computes it:
with z = (x - loc)/scale, the value is -z^2/2 - log(sqrt(2*pi)) - log(scale). -/
def norm_logpdf (x loc scale : ℝ) : ℝ :=
  -(((x - loc) / scale) ^ 2) / 2 - Real.log (Real.sqrt (2 * Real.pi)) - Real.log scale

/-- The log of the Gaussian probability density with mean mu and standard
deviation sigma, written directly as the spec words it (log of the density). -/
def gaussLogDensity (x mu sigma : ℝ) : ℝ :=
  Real.log ((sigma * Real.sqrt (2 * Real.pi))⁻¹ * Real.exp (-((x - mu) ^ 2) / (2 * sigma ^ 2)))

/-- sklearn.metrics.r2_score on single-column targets:
1 - sum((y - yhat)^2) / sum((y - mean y)^2). -/
def r2_score (y_true y_pred : Vec) : ℝ :=
  1 - (List.zipWith (fun a b => (a - b) ^ 2) y_true y_pred).sum /
      ((y_true.map (fun a => (a - np_mean y_true) ^ 2)).sum)

/-- sklearn.metrics.mean_squared_error: the mean of the squared errors. -/
def mean_squared_error (y_true y_pred : Vec) : ℝ :=
  (List.zipWith (fun a b => (a - b) ^ 2) y_true y_pred).sum / y_true.length

/-- The dict returned by calculate_metrics. -/
structure Metrics where
  r2 : ℝ
  rmse : ℝ
  mnll : ℝ

/-- calculate_metrics(y_test, y_mean_prediction, y_var_prediction):
r2 via sklearn r2_score, rmse = sqrt of sklearn mean_squared_error, and
mnll = -np.sum(scipy.stats.norm.logpdf(y_test, loc=y_mean_prediction,
scale=np.sqrt(y_var_prediction))) / len(y_test). -/
def calculate_metrics (y_test y_mean_prediction y_var_prediction : Vec) : Metrics :=
  { r2 := r2_score y_test y_mean_prediction
    rmse := Real.sqrt (mean_squared_error y_test y_mean_prediction)
    mnll := -(zipWith3 (fun y m v => norm_logpdf y m (Real.sqrt v))
        y_test y_mean_prediction y_var_prediction).sum / y_test.length }

/-- A model wrapper's observable behaviour: its name, the outcome of
optimize() and of predict(x) (Except models a raised Python exception). -/
structure ModelBeh where
  name : String
  optimize : Except String Unit
  predict : Mat → Except String (Vec × Vec)

/-- One run's metrics dict: model name -> Metrics, in insertion order. -/
abbrev RunMetrics := List (String × Metrics)

/-- Console events, coarsely: seeding, data generation, the optimize() and
predict() calls, and the printed artefacts. -/
inductive Ev where
  | seedSet : ℕ → Ev
  | dataGen : Ev
  | optimizeCall : String → Ev
  | predictCall : String → Ev
  | printModelR2 : String → ℝ → Ev
  | printAfterRuns : ℕ → String → Ev
  | printTable : List (String × List ℝ) → Ev

/-- The loop body of benchmark_models, carrying the metrics dict built so
far; a raised exception carries the dict as it stood when the exception
escaped (the entries completed before the failure). -/
def benchmark_models_aux (x_test : Mat) (y_test : Vec) :
    RunMetrics → List Ev → List ModelBeh → List Ev × Except (String × RunMetrics) RunMetrics
  | acc, evs, [] => (evs, .ok acc)
  | acc, evs, m :: rest =>
    match m.optimize with
    | .error e => (evs ++ [.optimizeCall m.name], .error (e, acc))
    | .ok _ =>
      match m.predict x_test with
      | .error e => (evs ++ [.optimizeCall m.name, .predictCall m.name], .error (e, acc))
      | .ok (y_mean, y_var) =>
        let mets := calculate_metrics y_test y_mean y_var
        benchmark_models_aux x_test y_test (acc ++ [(m.name, mets)])
          (evs ++ [.optimizeCall m.name, .predictCall m.name, .printModelR2 m.name mets.r2])
          rest

/-- benchmark_models(models, x_test, y_test). -/
def benchmark_models (models : List ModelBeh) (x_test : Mat) (y_test : Vec) :
    List Ev × Except (String × RunMetrics) RunMetrics :=
  benchmark_models_aux x_test y_test [] [] models

/-- Python dict lookup metric[name] in print_metrics (every run is assumed
to hold every model; a missing key would raise, here it defaults). -/
def lookupRun (run : RunMetrics) (name : String) : Metrics :=
  (run.lookup name).getD { r2 := 0, rmse := 0, mnll := 0 }

/-- Dict access metric[name][metric_name] by metric-name string. -/
def metricValue (m : Metrics) (metric_name : String) : ℝ :=
  if metric_name = "r2" then m.r2
  else if metric_name = "mnll" then m.mnll
  else if metric_name = "rmse" then m.rmse
  else 0

/-- print_metrics(metrics): the rows of the printed table.  model_names are
the keys of the first run's dict; each row holds, for metric_names =
['r2', 'mnll', 'rmse'], np.mean of that model's metric over all runs. -/
def print_metrics (runs : List RunMetrics) : List (String × List ℝ) :=
  let model_names := (runs.headD []).map Prod.fst
  let metric_names := ["r2", "mnll", "rmse"]
  model_names.map fun name =>
    (name, metric_names.map fun metric_name =>
      np_mean (runs.map fun run => metricValue (lookupRun run name) metric_name))

/-- Per-seed external data: the Latin hypercube draws and the normal draws
that np.random.seed(seed) determines. -/
structure Draws where
  trainSamples : List Mat
  gs : ℕ → ℕ → ℝ
  xTestRaw : Mat

/-- The external world of a benchmark: the fidelity functions fcn.f, the
seed-determined sampler draws, and the behaviour of the four model
constructors as functions of the training data (X, Y). -/
structure Env where
  fs : List (Mat → Vec)
  draws : ℕ → Draws
  mkHf : List Mat → List Vec → ModelBeh
  mkLin : List Mat → List Vec → ModelBeh
  mkNon : List Mat → List Vec → ModelBeh
  mkDgp : List Mat → List Vec → ModelBeh

/-- The generate_data call made by test_function under a given seed. -/
def seedRun (env : Env) (fcn : Function) (seed : ℕ) : Option GenResult :=
  let d := env.draws seed
  generateData fcn env.fs d.trainSamples d.gs d.xTestRaw

/-- The models list built by test_function: HighFidelityGp, then
LinearAutoRegressiveModel, then NonLinearAutoRegressiveModel, then the
MultiFidelityDeepGP renamed to mf_dgp_fix_lf_mean. -/
def runModels (env : Env) (r : GenResult) : List ModelBeh :=
  [env.mkHf r.X r.Y, env.mkLin r.X r.Y, env.mkNon r.X r.Y,
   { env.mkDgp r.X r.Y with name := "mf_dgp_fix_lf_mean" }]

/-- test_function(fcn, seed): seeds the RNG, generates data, constructs the
four models and runs benchmark_models.  A raised exception propagates (the
local metrics dict is dropped). -/
def test_function (env : Env) (fcn : Function) (seed : ℕ) :
    List Ev × Except String RunMetrics :=
  match seedRun env fcn seed with
  | none => ([Ev.seedSet seed], Except.error "IndexError")
  | some r =>
    ([Ev.seedSet seed, Ev.dataGen] ++
       (benchmark_models (runModels env r) r.x_test r.y_test).1,
     match (benchmark_models (runModels env r) r.x_test r.y_test).2 with
     | Except.error p => Except.error p.1
     | Except.ok mets => Except.ok mets)

/-- Python str(num_data), e.g. "[60, 5]". -/
def pyStrNatList (l : List ℕ) : String :=
  "[" ++ String.intercalate ", " (l.map toString) ++ "]"

/-- run_name = str(seed) + str(fcn_tuple.num_data). -/
def run_name (seed : ℕ) (fcn : Function) : String :=
  toString seed ++ pyStrNatList fcn.num_data

/-- The hardcoded seeds of do_benchmark. -/
def seeds : List ℕ := [123, 184, 202, 289, 732]

/-- The loop body of do_benchmark over enumerate(seeds): i is the running
enumeration index; an exception from test_function propagates and halts
the loop. -/
def do_benchmark_aux (env : Env) (fcn : Function) :
    List (String × RunMetrics) → List Ev → ℕ → List ℕ →
      List Ev × Except String (List (String × RunMetrics))
  | acc, evs, _, [] => (evs, Except.ok acc)
  | acc, evs, i, seed :: rest =>
    match (test_function env fcn seed).2 with
    | Except.error e => (evs ++ (test_function env fcn seed).1, Except.error e)
    | Except.ok run =>
      do_benchmark_aux env fcn (acc ++ [(run_name seed fcn, run)])
        (evs ++ (test_function env fcn seed).1 ++
          [Ev.printAfterRuns (i + 1) fcn.name,
           Ev.printTable (print_metrics ((acc ++ [(run_name seed fcn, run)]).map Prod.snd))])
        (i + 1) rest

/-- do_benchmark(fcn_tuple): iterate test_function over the five seeds,
recording each run under run_name and printing the running table. -/
def do_benchmark (env : Env) (fcn : Function) :
    List Ev × Except String (List (String × RunMetrics)) :=
  do_benchmark_aux env fcn [] [] 0 seeds

/-- A computation that did not raise. -/
def exceptOk {ε α : Type} (x : Except ε α) : Prop := ∃ a, x = Except.ok a

/-- A model whose optimize() and predict(x_test) both return normally. -/
def modelOk (m : ModelBeh) (x : Mat) : Prop :=
  m.optimize = Except.ok () ∧ ∃ mv, m.predict x = Except.ok mv

/-- Placeholder metrics record (used as the value of a lookup that Python
would have raised on; claims only evaluate it where the key is present). -/
def defaultMetrics : Metrics := { r2 := 0, rmse := 0, mnll := 0 }

/-- The metrics a model contributes when its calls return normally. -/
def metricsOf (m : ModelBeh) (x : Mat) (y : Vec) : Metrics :=
  match m.predict x with
  | Except.ok (ym, yv) => calculate_metrics y ym yv
  | Except.error _ => defaultMetrics

/-- Spec-side description of the metrics dict benchmark_models builds when
every model succeeds: one entry per model, in order. -/
def successMetrics (ms : List ModelBeh) (x : Mat) (y : Vec) : RunMetrics :=
  ms.map fun m => (m.name, metricsOf m x y)

/-- Spec-side description of the events benchmark_models emits when every
model succeeds: optimize, predict and the r2 print, per model in order. -/
def modelEvents (ms : List ModelBeh) (x : Mat) (y : Vec) : List Ev :=
  (ms.map fun m =>
    [Ev.optimizeCall m.name, Ev.predictCall m.name,
     Ev.printModelR2 m.name (metricsOf m x y).r2]).flatten

/-- The metrics dict a successful run under a given seed records. -/
def runMetricsOf (env : Env) (fcn : Function) (s : ℕ) : RunMetrics :=
  match seedRun env fcn s with
  | some r => successMetrics (runModels env r) r.x_test r.y_test
  | none => []

/-- Spec-side description of the do_benchmark event trace, following the
spec's words: for each enumerated seed, re-seed, regenerate data, fit and
evaluate the four models, then print the header and the running-average
table over the runs recorded so far. -/
def runsTrace (env : Env) (fcn : Function) : ℕ → List RunMetrics → List ℕ → List Ev
  | _, _, [] => []
  | i, prev, s :: rest =>
    (match seedRun env fcn s with
     | some r =>
       [Ev.seedSet s, Ev.dataGen] ++ modelEvents (runModels env r) r.x_test r.y_test ++
         [Ev.printAfterRuns (i + 1) fcn.name,
          Ev.printTable (print_metrics (prev ++ [runMetricsOf env fcn s]))]
     | none => [Ev.seedSet s]) ++
    runsTrace env fcn (i + 1) (prev ++ [runMetricsOf env fcn s]) rest

/-! Concrete data used by the witness theorems. -/

/-- A concrete fidelity function: each output is its row's coordinate sum. -/
def fW : Mat → Vec := fun m => m.map (fun r => r.sum)

/-- A concrete two-fidelity descriptor. -/
def dW : Function :=
  { name := "currin", y_scale := 1, noise_level := [0, 0],
    do_x_scaling := false, num_data := [2, 1] }

/-- Concrete fidelity functions, one per fidelity of dW. -/
def fsW : List (Mat → Vec) := [fW, fW]

/-- Concrete Latin hypercube draws: two samples at fidelity 0, one at 1. -/
def tsW : List Mat := [[[1, 2], [3, 4]], [[5, 6]]]

/-- Concrete standard-normal draws (all zero). -/
def gsW : ℕ → ℕ → ℝ := fun _ _ => 0

/-- Concrete test-input draw. -/
def xrW : Mat := [[7, 8]]

/-- The result of generate_data on the concrete witness data. -/
def rW : GenResult := (generateData dW fsW tsW gsW xrW).getD ⟨[], [], [], []⟩

/-- A model behaviour that always succeeds. -/
def mBeh (nm : String) : ModelBeh :=
  { name := nm, optimize := Except.ok (), predict := fun _ => Except.ok ([0], [1]) }

/-- A model behaviour whose optimize() raises. -/
def badBeh : ModelBeh :=
  { name := "bad", optimize := Except.error "boom", predict := fun _ => Except.ok ([0], [1]) }

/-- A concrete environment in which every seed's run succeeds. -/
def envW : Env :=
  { fs := fsW, draws := fun _ => { trainSamples := tsW, gs := gsW, xTestRaw := xrW },
    mkHf := fun _ _ => mBeh "hf_gp", mkLin := fun _ _ => mBeh "ar1",
    mkNon := fun _ _ => mBeh "nargp", mkDgp := fun _ _ => mBeh "mf_dgp" }

/-- A concrete environment whose first model's optimize() raises. -/
def envFailW : Env :=
  { envW with mkHf := fun _ _ => badBeh }

/-- Single-fidelity draws for the C10 witness. -/
def ts1W : List Mat := [[[1, 2]]]

/-- A single-fidelity descriptor for the C10 witness. -/
def d1W : Function :=
  { name := "one", y_scale := 1, noise_level := [0],
    do_x_scaling := false, num_data := [2] }

/-- A concrete metrics record. -/
def mW : Metrics := { r2 := 1, rmse := 2, mnll := 3 }

/-- A concrete one-run metrics dict. -/
def runsW : List RunMetrics := [[("hf_gp", mW)]]

/-! Helper lemmas about the list plumbing of the embedding. -/

theorem getD_of_get? {α : Type} {l : List α} {i : ℕ} {a : α} (d : α)
    (h : l.get? i = some a) : l.getD i d = a := by
  simp [List.getD_eq_getElem?_getD, ← List.get?_eq_getElem?, h]

theorem getD_map_of_lt {α β : Type} (f : α → β) (l : List α) (i : ℕ) (da : α) (db : β)
    (h : i < l.length) : (l.map f).getD i db = f (l.getD i da) := by
  induction l generalizing i with
  | nil => simp at h
  | cons x xs ih =>
    cases i with
    | zero => simp
    | succ j => simpa using ih j (by simpa using h)

theorem getD_mem_of_lt {α : Type} (l : List α) (i : ℕ) (d : α)
    (h : i < l.length) : l.getD i d ∈ l := by
  rw [List.getD_eq_getElem l d h]
  exact List.getElem_mem h

theorem buildY_spec (fs : List (Mat → Vec)) (scal : Vec) :
    ∀ (xs : List Mat) (start : ℕ) (ys : List Vec), buildY fs scal xs start = some ys →
      ys.length = xs.length ∧
      ∀ j, j < xs.length →
        ys.getD j [] = (fs.getD (start + j) (fun _ => []))
          (matMulRows (xs.getD j []) scal) := by
  intro xs
  induction xs with
  | nil =>
    intro start ys h
    simp only [buildY, Option.some.injEq] at h
    subst h
    simp
  | cons x xs ih =>
    intro start ys h
    simp only [buildY] at h
    cases hf : fs.get? start with
    | none => rw [hf] at h; simp at h
    | some f =>
      rw [hf] at h
      cases hb : buildY fs scal xs (start + 1) with
      | none => rw [hb] at h; simp at h
      | some ys' =>
        rw [hb] at h
        simp only [Option.some.injEq] at h
        subst h
        obtain ⟨hlen, hget⟩ := ih (start + 1) ys' hb
        refine ⟨by simp [hlen], ?_⟩
        intro j hj
        cases j with
        | zero =>
          simp only [List.getD_cons_zero, Nat.add_zero]
          rw [getD_of_get? (fun _ => []) hf]
        | succ j' =>
          simp only [List.getD_cons_succ]
          rw [hget j' (by simpa using hj)]
          simp only [show start + 1 + j' = start + (j' + 1) from by omega]

theorem applyNoise_length (s : ℝ) (gs : ℕ → ℕ → ℝ) :
    ∀ (ys : List Vec) (σs : List ℝ) (i : ℕ),
      (applyNoise s gs ys σs i).length = ys.length := by
  intro ys
  induction ys with
  | nil => intro σs i; cases σs <;> simp [applyNoise]
  | cons y ys ih =>
    intro σs i
    cases σs with
    | nil => simp [applyNoise]
    | cons σ σs => simp [applyNoise, ih]

theorem applyNoise_getD (s : ℝ) (gs : ℕ → ℕ → ℝ) :
    ∀ (ys : List Vec) (σs : List ℝ) (i j : ℕ), j < ys.length → j < σs.length →
      (applyNoise s gs ys σs i).getD j [] =
        ((ys.getD j []).mapIdx fun k yk => yk / (s + σs.getD j 0 * gs (i + j) k)) := by
  intro ys
  induction ys with
  | nil => intro σs i j hy hσ; simp at hy
  | cons y ys ih =>
    intro σs i j hy hσ
    cases σs with
    | nil => simp at hσ
    | cons σ σs =>
      cases j with
      | zero => simp [applyNoise]
      | succ j' =>
        simp only [applyNoise, List.getD_cons_succ]
        rw [ih σs (i + 1) j' (by simpa using hy) (by simpa using hσ)]
        simp only [show i + 1 + j' = i + (j' + 1) from by omega]

theorem generateData_inv {d : Function} {fs : List (Mat → Vec)} {ts : List Mat}
    {gs : ℕ → ℕ → ℝ} {xr : Mat} {r : GenResult}
    (h : generateData d fs ts gs xr = some r) :
    ∃ Yraw fLast,
      buildY fs (scalings d ts) (ts.map fun x => matDivRows x (scalings d ts)) 0 = some Yraw ∧
      fs.getLast? = some fLast ∧
      1 < r.X.length ∧
      r.X = ts.map (fun x => matDivRows x (scalings d ts)) ∧
      r.Y = applyNoise d.y_scale gs Yraw d.noise_level 0 ∧
      r.x_test = (matDivRows xr (scalings d ts)).map
        (fun row => row ++ [i_highest_fidelity d]) ∧
      r.y_test = (fLast (matMulRows (matDivRows xr (scalings d ts))
        (scalings d ts))).map (fun y => y / d.y_scale) := by
  unfold generateData at h
  cases hc : generateDataCore d fs ts gs xr with
  | none => rw [hc] at h; simp at h
  | some r' =>
    rw [hc] at h
    dsimp only at h
    cases hx : r'.X.get? 1 with
    | none => rw [hx] at h; simp at h
    | some m1 =>
      rw [hx] at h
      simp only [Option.some.injEq] at h
      subst h
      unfold generateDataCore at hc
      cases ht : ts.get? 0 with
      | none => rw [ht] at hc; simp at hc
      | some x0 =>
        rw [ht] at hc
        dsimp only at hc
        cases hb : buildY fs (scalings d ts)
            (ts.map fun x => matDivRows x (scalings d ts)) 0 with
        | none => rw [hb] at hc; simp at hc
        | some Yraw =>
          rw [hb] at hc
          dsimp only at hc
          cases hl : fs.getLast? with
          | none => rw [hl] at hc; simp at hc
          | some fLast =>
            rw [hl] at hc
            dsimp only at hc
            simp only [Option.some.injEq] at hc
            subst hc
            refine ⟨Yraw, fLast, rfl, rfl, ?_, rfl, rfl, rfl, rfl⟩
            obtain ⟨hlt, _⟩ := List.get?_eq_some.mp hx
            exact hlt

theorem vecDiv_replicate_one :
    ∀ (row : Vec) (n : ℕ), row.length ≤ n → vecDiv row (List.replicate n 1) = row := by
  intro row
  induction row with
  | nil => intro n h; cases n <;> simp [vecDiv]
  | cons a row ih =>
    intro n h
    cases n with
    | zero => simp at h
    | succ n =>
      have htl := ih n (by simpa using h)
      simp only [vecDiv, List.replicate_succ, List.zipWith_cons_cons, div_one] at htl ⊢
      rw [htl]

theorem matDivRows_ones (m : Mat) (n : ℕ) (h : ∀ row ∈ m, row.length ≤ n) :
    matDivRows m (List.replicate n 1) = m := by
  unfold matDivRows
  rw [List.map_congr_left (fun row hrow => vecDiv_replicate_one row n (h row hrow))]
  exact List.map_id m

theorem vecMul_vecDiv_cancel :
    ∀ (row s : Vec), row.length ≤ s.length → (∀ x ∈ s, x ≠ 0) →
      vecMul (vecDiv row s) s = row := by
  intro row
  induction row with
  | nil => intro s h hnz; simp [vecDiv, vecMul]
  | cons a row ih =>
    intro s h hnz
    cases s with
    | nil => simp at h
    | cons b s =>
      have htl := ih s (by simpa using h) (fun x hx => hnz x (List.mem_cons_of_mem _ hx))
      simp only [vecDiv, vecMul, List.zipWith_cons_cons] at htl ⊢
      rw [htl, div_mul_cancel₀ a (hnz b (List.mem_cons_self _ _))]

theorem matMulRows_matDivRows_cancel (m : Mat) (s : Vec)
    (h : ∀ row ∈ m, row.length ≤ s.length) (hnz : ∀ x ∈ s, x ≠ 0) :
    matMulRows (matDivRows m s) s = m := by
  induction m with
  | nil => rfl
  | cons row m ih =>
    simp only [matDivRows, matMulRows, List.map_cons] at ih ⊢
    rw [vecMul_vecDiv_cancel row s (h row (List.mem_cons_self _ _)) hnz,
      ih (fun r hr => h r (List.mem_cons_of_mem _ hr))]

/-! The claim theorems. -/

/-- C1: In generate_data, for every training fidelity level i, the outputs
Y[i] are elementwise divided by (y_scale + noise_level[i] * standard-normal
draw): the fidelity-specific Gaussian noise enters the divisor together
with the output scale, rather than being added to the outputs after they
are divided by y_scale. -/
theorem C1_noise_enters_divisor (d : Function) (fs : List (Mat → Vec)) (ts : List Mat)
    (gs : ℕ → ℕ → ℝ) (xr : Mat) (r : GenResult) (i : ℕ)
    (hr : generateData d fs ts gs xr = some r)
    (hi : i < d.noise_level.length) (hiY : i < r.Y.length) :
    r.Y.getD i [] =
      (((fs.getD i (fun _ => [])) (matMulRows (matDivRows (ts.getD i [])
          (scalings d ts)) (scalings d ts))).mapIdx
        fun k yk => yk / (d.y_scale + d.noise_level.getD i 0 * gs i k)) := by
  obtain ⟨Yraw, fLast, hb, hl, hlt, hX, hY, hxt, hyt⟩ := generateData_inv hr
  obtain ⟨hlen, hget⟩ := buildY_spec fs (scalings d ts) _ 0 Yraw hb
  have hYlen : r.Y.length = Yraw.length := by rw [hY, applyNoise_length]
  have hits : Yraw.length = ts.length := by simpa using hlen
  rw [hY, applyNoise_getD d.y_scale gs Yraw d.noise_level 0 i (by omega) hi]
  rw [hget i (by simp; omega)]
  rw [getD_map_of_lt (fun x => matDivRows x (scalings d ts)) ts i [] [] (by omega)]
  simp only [Nat.zero_add]

/-- C4: When do_x_scaling is true, generate_data divides every fidelity's
inputs and the test inputs by one and the same vector, the axis-wise
standard deviation of the lowest-fidelity sample set; when it is false the
scaling vector is all ones and every input array stays equal to its raw
Latin hypercube samples. -/
theorem C4_input_scaling (d : Function) (fs : List (Mat → Vec)) (ts : List Mat)
    (gs : ℕ → ℕ → ℝ) (xr : Mat) (r : GenResult)
    (hr : generateData d fs ts gs xr = some r) :
    (d.do_x_scaling = true →
      scalings d ts = npStdAxis0 (ts.headD []) ∧
      r.X = ts.map (fun m => matDivRows m (npStdAxis0 (ts.headD []))) ∧
      r.x_test = (matDivRows xr (npStdAxis0 (ts.headD []))).map
        (fun row => row ++ [i_highest_fidelity d])) ∧
    (d.do_x_scaling = false →
      scalings d ts = List.replicate ((ts.headD []).headD []).length 1 ∧
      ((∀ m ∈ ts, ∀ row ∈ m, row.length ≤ ((ts.headD []).headD []).length) →
        r.X = ts) ∧
      ((∀ row ∈ xr, row.length ≤ ((ts.headD []).headD []).length) →
        r.x_test = xr.map (fun row => row ++ [i_highest_fidelity d]))) := by
  obtain ⟨Yraw, fLast, hb, hl, hlt, hX, hY, hxt, hyt⟩ := generateData_inv hr
  constructor
  · intro hxs
    have hscal : scalings d ts = npStdAxis0 (ts.headD []) := by simp [scalings, hxs]
    exact ⟨hscal, by rw [hX, hscal], by rw [hxt, hscal]⟩
  · intro hxs
    have hscal : scalings d ts = List.replicate ((ts.headD []).headD []).length 1 := by
      simp [scalings, hxs]
    refine ⟨hscal, ?_, ?_⟩
    · intro hdim
      rw [hX, hscal]
      rw [List.map_congr_left (fun m hm => matDivRows_ones m _ (hdim m hm))]
      exact List.map_id ts
    · intro hdim
      rw [hxt, hscal, matDivRows_ones xr _ hdim]

/-- C5: Every test input row returned by generate_data is the scaled raw
test row with exactly one extra final column appended, whose value is
len(num_data) - 1 (the index of the highest fidelity), identical for
every row. -/
theorem C5_test_fidelity_column (d : Function) (fs : List (Mat → Vec)) (ts : List Mat)
    (gs : ℕ → ℕ → ℝ) (xr : Mat) (r : GenResult)
    (hr : generateData d fs ts gs xr = some r) :
    r.x_test = (matDivRows xr (scalings d ts)).map
      (fun row => row ++ [i_highest_fidelity d]) ∧
    i_highest_fidelity d = (((d.num_data.length : ℤ) - 1 : ℤ) : ℝ) ∧
    ∀ row ∈ r.x_test, row.getLast? = some (i_highest_fidelity d) := by
  obtain ⟨Yraw, fLast, hb, hl, hlt, hX, hY, hxt, hyt⟩ := generateData_inv hr
  refine ⟨hxt, rfl, ?_⟩
  intro row hrow
  rw [hxt] at hrow
  simp only [List.mem_map] at hrow
  obtain ⟨row0, _, rfl⟩ := hrow
  simp

/-- C6: generate_data evaluates each fidelity function at
(X[i] / scalings) * scalings, which round-trips to the original unscaled
Latin hypercube samples, and the test outputs come from the last fidelity
function at the rescaled-back test inputs. -/
theorem C6_scaling_roundtrip (d : Function) (fs : List (Mat → Vec)) (ts : List Mat)
    (gs : ℕ → ℕ → ℝ) (xr : Mat) (r : GenResult)
    (hr : generateData d fs ts gs xr = some r)
    (fLast : Mat → Vec) (hfl : fs.getLast? = some fLast)
    (hnz : ∀ x ∈ scalings d ts, x ≠ 0)
    (hts : ∀ m ∈ ts, ∀ row ∈ m, row.length ≤ (scalings d ts).length)
    (hxr : ∀ row ∈ xr, row.length ≤ (scalings d ts).length) :
    (∀ i, i < r.X.length →
      matMulRows (r.X.getD i []) (scalings d ts) = ts.getD i []) ∧
    matMulRows (matDivRows xr (scalings d ts)) (scalings d ts) = xr ∧
    r.y_test = (fLast xr).map (fun y => y / d.y_scale) := by
  obtain ⟨Yraw, fLast', hb, hl, hlt, hX, hY, hxt, hyt⟩ := generateData_inv hr
  rw [hl] at hfl
  have hfl2 : fLast' = fLast := Option.some.inj hfl
  have hcancel : matMulRows (matDivRows xr (scalings d ts)) (scalings d ts) = xr :=
    matMulRows_matDivRows_cancel xr (scalings d ts) hxr hnz
  refine ⟨?_, hcancel, ?_⟩
  · intro i hiX
    have hil : i < ts.length := by
      rw [hX] at hiX; simpa using hiX
    rw [hX, getD_map_of_lt (fun x => matDivRows x (scalings d ts)) ts i [] [] hil]
    exact matMulRows_matDivRows_cancel (ts.getD i []) (scalings d ts)
      (hts (ts.getD i []) (getD_mem_of_lt ts i [] hil)) hnz
  · rw [hyt, hfl2, hcancel]

/-- C9: The test targets returned by generate_data are exactly the
highest-fidelity function values divided by y_scale, with no Gaussian
noise applied, whatever the noise levels and noise draws are. -/
theorem C9_test_targets_noise_free (d : Function) (fs : List (Mat → Vec)) (ts : List Mat)
    (gs : ℕ → ℕ → ℝ) (xr : Mat) (r : GenResult)
    (hr : generateData d fs ts gs xr = some r)
    (fLast : Mat → Vec) (hfl : fs.getLast? = some fLast) :
    r.y_test = (fLast (matMulRows (matDivRows xr (scalings d ts))
      (scalings d ts))).map (fun y => y / d.y_scale) := by
  obtain ⟨Yraw, fLast', hb, hl, hlt, hX, hY, hxt, hyt⟩ := generateData_inv hr
  rw [hl] at hfl
  rw [hyt, Option.some.inj hfl]

/-- C10: generate_data accesses X[1] just before returning, so a
descriptor with exactly one fidelity level makes it raise an index error
even though all data and test arrays were successfully built. -/
theorem C10_single_fidelity_raises (d : Function) (fs : List (Mat → Vec))
    (ts : List Mat) (gs : ℕ → ℕ → ℝ) (xr : Mat)
    (hnum : d.num_data.length = 1) (hts : ts.length = d.num_data.length)
    (hfs : fs ≠ []) :
    (∃ r0, generateDataCore d fs ts gs xr = some r0) ∧
    generateData d fs ts gs xr = none := by
  obtain ⟨m, rfl⟩ := List.length_eq_one.mp (by omega : ts.length = 1)
  obtain ⟨f, fs', rfl⟩ := List.exists_cons_of_ne_nil hfs
  exact ⟨⟨_, rfl⟩, rfl⟩

theorem norm_logpdf_eq_gaussLogDensity (x mu sigma : ℝ) (h : 0 < sigma) :
    norm_logpdf x mu sigma = gaussLogDensity x mu sigma := by
  have hs : sigma ≠ 0 := ne_of_gt h
  have h2pi : (0 : ℝ) < 2 * Real.pi := by positivity
  have hsqrt : Real.sqrt (2 * Real.pi) ≠ 0 := ne_of_gt (Real.sqrt_pos.mpr h2pi)
  unfold norm_logpdf gaussLogDensity
  rw [Real.log_mul (inv_ne_zero (mul_ne_zero hs hsqrt)) (Real.exp_ne_zero _),
    Real.log_inv, Real.log_exp, Real.log_mul hs hsqrt]
  field_simp
  ring

theorem zipWith3_congr_right {α β γ δ : Type} (f g : α → β → γ → δ) :
    ∀ (as : List α) (bs : List β) (cs : List γ),
      (∀ c ∈ cs, ∀ a b, f a b c = g a b c) →
      zipWith3 f as bs cs = zipWith3 g as bs cs := by
  intro as
  induction as with
  | nil => intro bs cs h; cases bs <;> cases cs <;> rfl
  | cons a as ih =>
    intro bs cs h
    cases bs with
    | nil => cases cs <;> rfl
    | cons b bs =>
      cases cs with
      | nil => rfl
      | cons c cs =>
        simp only [zipWith3]
        rw [h c (List.mem_cons_self _ _),
          ih bs cs (fun c' hc' a' b' => h c' (List.mem_cons_of_mem _ hc') a' b')]

/-- C3: calculate_metrics is a pure function of (test targets, predicted
means, predicted variances): rmse is the square root of the mean squared
error, mnll is the negative sum of the Gaussian log-densities (mean the
predicted mean, standard deviation the square root of the predicted
variance) divided by the number of test points, and r2 is the coefficient
of determination. -/
theorem C3_metric_formulas (y_test y_mean_prediction y_var_prediction : Vec)
    (hv : ∀ v ∈ y_var_prediction, 0 < v) :
    (calculate_metrics y_test y_mean_prediction y_var_prediction).r2 =
      1 - (List.zipWith (fun a b => (a - b) ^ 2) y_test y_mean_prediction).sum /
        ((y_test.map (fun a => (a - y_test.sum / y_test.length) ^ 2)).sum) ∧
    (calculate_metrics y_test y_mean_prediction y_var_prediction).rmse =
      Real.sqrt ((List.zipWith (fun a b => (a - b) ^ 2) y_test y_mean_prediction).sum /
        y_test.length) ∧
    (calculate_metrics y_test y_mean_prediction y_var_prediction).mnll =
      -(zipWith3 (fun y m v => gaussLogDensity y m (Real.sqrt v))
          y_test y_mean_prediction y_var_prediction).sum / y_test.length := by
  refine ⟨rfl, rfl, ?_⟩
  simp only [calculate_metrics]
  rw [zipWith3_congr_right _ _ y_test y_mean_prediction y_var_prediction
    (fun v hv' y m => norm_logpdf_eq_gaussLogDensity y m (Real.sqrt v)
      (Real.sqrt_pos.mpr (hv v hv')))]

theorem lookup_map_self {β : Type} (g : String → β) :
    ∀ (l : List String) (a : String), a ∈ l →
      (l.map fun n => (n, g n)).lookup a = some (g a) := by
  intro l
  induction l with
  | nil => intro a ha; simp at ha
  | cons n l ih =>
    intro a ha
    by_cases hae : a = n
    · subst hae
      simp [List.lookup]
    · have ha' : a ∈ l := by
        rcases List.mem_cons.mp ha with h | h
        · exact absurd h hae
        · exact h
      have hbeq : (a == n) = false := beq_eq_false_iff_ne.mpr hae
      simp only [List.map_cons, List.lookup, hbeq]
      exact ih a ha'

/-- C7: for every model and metric among r2, mnll and rmse, the table cell
print_metrics produces is the arithmetic mean of that model's values of
that metric over all runs recorded so far. -/
theorem C7_running_averages (runs : List RunMetrics) (name : String)
    (hmem : name ∈ (runs.headD []).map Prod.fst) :
    (print_metrics runs).lookup name = some
      [(runs.map fun run => (lookupRun run name).r2).sum / runs.length,
       (runs.map fun run => (lookupRun run name).mnll).sum / runs.length,
       (runs.map fun run => (lookupRun run name).rmse).sum / runs.length] := by
  have hl := lookup_map_self
    (fun name => (["r2", "mnll", "rmse"]).map fun metric_name =>
      np_mean (runs.map fun run => metricValue (lookupRun run name) metric_name))
    ((runs.headD []).map Prod.fst) name hmem
  simp only [print_metrics]
  rw [hl]
  simp [metricValue, np_mean]

theorem benchmark_models_aux_ok (x : Mat) (y : Vec) :
    ∀ (ms : List ModelBeh) (acc : RunMetrics) (evs : List Ev),
      (∀ m ∈ ms, modelOk m x) →
      benchmark_models_aux x y acc evs ms =
        (evs ++ modelEvents ms x y, Except.ok (acc ++ successMetrics ms x y)) := by
  intro ms
  induction ms with
  | nil =>
    intro acc evs h
    simp [benchmark_models_aux, modelEvents, successMetrics]
  | cons m ms ih =>
    intro acc evs h
    obtain ⟨hopt, mv, hpred⟩ := h m (List.mem_cons_self _ _)
    obtain ⟨ym, yv⟩ := mv
    simp only [benchmark_models_aux]
    rw [hopt]
    dsimp only
    rw [hpred]
    dsimp only
    rw [ih _ _ (fun m' hm' => h m' (List.mem_cons_of_mem _ hm'))]
    simp [successMetrics, modelEvents, metricsOf, hpred, List.append_assoc]

theorem benchmark_models_aux_error (x : Mat) (y : Vec) (bad : ModelBeh)
    (rest : List ModelBeh) (e : String)
    (hbad : bad.optimize = Except.error e ∨
      (bad.optimize = Except.ok () ∧ bad.predict x = Except.error e)) :
    ∀ (pre : List ModelBeh) (acc : RunMetrics) (evs : List Ev),
      (∀ m ∈ pre, modelOk m x) →
      (benchmark_models_aux x y acc evs (pre ++ bad :: rest)).2 =
        Except.error (e, acc ++ successMetrics pre x y) := by
  intro pre
  induction pre with
  | nil =>
    intro acc evs h
    simp only [List.nil_append, benchmark_models_aux]
    rcases hbad with hopt | ⟨hopt, hpred⟩
    · rw [hopt]
      simp [successMetrics]
    · rw [hopt]
      dsimp only
      rw [hpred]
      simp [successMetrics]
  | cons m pre ih =>
    intro acc evs h
    obtain ⟨hopt, mv, hpred⟩ := h m (List.mem_cons_self _ _)
    obtain ⟨ym, yv⟩ := mv
    simp only [List.cons_append, benchmark_models_aux]
    rw [hopt]
    dsimp only
    rw [hpred]
    dsimp only
    simp only [List.append_eq]
    rw [ih _ _ (fun m' hm' => h m' (List.mem_cons_of_mem _ hm'))]
    simp [successMetrics, metricsOf, hpred, List.append_assoc]

theorem test_function_ok (env : Env) (fcn : Function) (s : ℕ) (r : GenResult)
    (hgen : seedRun env fcn s = some r)
    (hm : ∀ m ∈ runModels env r, modelOk m r.x_test) :
    test_function env fcn s =
      ([Ev.seedSet s, Ev.dataGen] ++ modelEvents (runModels env r) r.x_test r.y_test,
       Except.ok (successMetrics (runModels env r) r.x_test r.y_test)) := by
  have hbm : benchmark_models (runModels env r) r.x_test r.y_test =
      (modelEvents (runModels env r) r.x_test r.y_test,
       Except.ok (successMetrics (runModels env r) r.x_test r.y_test)) := by
    unfold benchmark_models
    simpa using benchmark_models_aux_ok r.x_test r.y_test (runModels env r) [] [] hm
  simp only [test_function, hgen, hbm]

theorem do_benchmark_aux_ok (env : Env) (fcn : Function) :
    ∀ (ss : List ℕ) (acc : List (String × RunMetrics)) (evs : List Ev) (i : ℕ),
      (∀ s ∈ ss, ∃ r, seedRun env fcn s = some r ∧
        ∀ m ∈ runModels env r, modelOk m r.x_test) →
      do_benchmark_aux env fcn acc evs i ss =
        (evs ++ runsTrace env fcn i (acc.map Prod.snd) ss,
         Except.ok (acc ++ ss.map fun s => (run_name s fcn, runMetricsOf env fcn s))) := by
  intro ss
  induction ss with
  | nil =>
    intro acc evs i h
    simp [do_benchmark_aux, runsTrace]
  | cons s ss ih =>
    intro acc evs i h
    obtain ⟨r, hgen, hm⟩ := h s (List.mem_cons_self _ _)
    have htf := test_function_ok env fcn s r hgen hm
    have hrm : runMetricsOf env fcn s =
        successMetrics (runModels env r) r.x_test r.y_test := by
      unfold runMetricsOf
      rw [hgen]
    simp only [do_benchmark_aux, htf]
    rw [ih _ _ _ (fun s' hs' => h s' (List.mem_cons_of_mem _ hs'))]
    simp only [runsTrace, hgen, hrm]
    simp [List.append_assoc, List.map_append, hrm]

/-- C2: do_benchmark iterates over exactly the seeds 123, 184, 202, 289 and
732 in order; for each it re-seeds the RNG, regenerates the data,
constructs and fits the four models, computes their metrics, records the
run under run_name, and prints the table of running averages after every
run. -/
theorem C2_benchmark_loop (env : Env) (fcn : Function)
    (h : ∀ s ∈ seeds, ∃ r, seedRun env fcn s = some r ∧
      ∀ m ∈ runModels env r, modelOk m r.x_test) :
    seeds = [123, 184, 202, 289, 732] ∧
    do_benchmark env fcn =
      (runsTrace env fcn 0 [] seeds,
       Except.ok (seeds.map fun s => (run_name s fcn, runMetricsOf env fcn s))) := by
  refine ⟨rfl, ?_⟩
  unfold do_benchmark
  simpa using do_benchmark_aux_ok env fcn seeds [] [] 0 h

theorem do_benchmark_aux_ok_implies (env : Env) (fcn : Function) :
    ∀ (ss : List ℕ) (acc : List (String × RunMetrics)) (evs : List Ev) (i : ℕ),
      exceptOk (do_benchmark_aux env fcn acc evs i ss).2 →
      ∀ s ∈ ss, exceptOk (test_function env fcn s).2 := by
  intro ss
  induction ss with
  | nil =>
    intro acc evs i hok s hs
    simp at hs
  | cons s0 ss ih =>
    intro acc evs i hok s hs
    cases htf : (test_function env fcn s0).2 with
    | error e =>
      exfalso
      simp only [do_benchmark_aux, htf] at hok
      obtain ⟨a, ha⟩ := hok
      exact Except.noConfusion ha
    | ok run =>
      rcases List.mem_cons.mp hs with rfl | hs'
      · exact ⟨run, htf⟩
      · simp only [do_benchmark_aux, htf] at hok
        exact ih _ _ _ hok s hs'

/-- C8: neither benchmark_models nor do_benchmark handles or retries
exceptions: a failing optimize() or predict() makes benchmark_models
propagate the error with the metrics dict holding exactly the entries of
the models completed before the failure, and a failing run makes
do_benchmark fail. -/
theorem C8_no_error_recovery (x : Mat) (y : Vec) (pre : List ModelBeh) (bad : ModelBeh)
    (rest : List ModelBeh) (e : String)
    (hpre : ∀ m ∈ pre, modelOk m x)
    (hbad : bad.optimize = Except.error e ∨
      (bad.optimize = Except.ok () ∧ bad.predict x = Except.error e))
    (env : Env) (fcn : Function) (s : ℕ) (hs : s ∈ seeds)
    (hfail : ¬ exceptOk (test_function env fcn s).2) :
    (benchmark_models (pre ++ bad :: rest) x y).2 =
      Except.error (e, successMetrics pre x y) ∧
    ¬ exceptOk (do_benchmark env fcn).2 := by
  constructor
  · unfold benchmark_models
    simpa using benchmark_models_aux_error x y bad rest e hbad pre [] [] hpre
  · intro hok
    exact hfail (do_benchmark_aux_ok_implies env fcn seeds [] [] 0 hok s hs)

/-! Witness facts at the concrete data. -/

theorem rW_spec : generateData dW fsW tsW gsW xrW = some rW := rfl

theorem rW_Y_len : 0 < rW.Y.length := by decide

theorem scalW : scalings dW tsW = [1, 1] := by
  simp [scalings, dW, tsW, List.replicate]

/-- Witness for C1: the concrete two-fidelity run, at fidelity 0. -/
theorem C1_witness :
    generateData dW fsW tsW gsW xrW = some rW ∧
    0 < dW.noise_level.length ∧ 0 < rW.Y.length ∧
    rW.Y.getD 0 [] =
      (((fsW.getD 0 (fun _ => [])) (matMulRows (matDivRows (tsW.getD 0 [])
          (scalings dW tsW)) (scalings dW tsW))).mapIdx
        fun k yk => yk / (dW.y_scale + dW.noise_level.getD 0 0 * gsW 0 k)) :=
  ⟨rW_spec, by decide, rW_Y_len,
    C1_noise_enters_divisor dW fsW tsW gsW xrW rW 0 rW_spec (by decide) rW_Y_len⟩

/-- Witness for C2: a concrete environment in which every seed succeeds. -/
theorem C2_witness :
    (∀ s ∈ seeds, ∃ r, seedRun envW dW s = some r ∧
      ∀ m ∈ runModels envW r, modelOk m r.x_test) ∧
    (seeds = [123, 184, 202, 289, 732] ∧
     do_benchmark envW dW =
       (runsTrace envW dW 0 [] seeds,
        Except.ok (seeds.map fun s => (run_name s dW, runMetricsOf envW dW s)))) := by
  have hyp : ∀ s ∈ seeds, ∃ r, seedRun envW dW s = some r ∧
      ∀ m ∈ runModels envW r, modelOk m r.x_test := by
    intro s _
    refine ⟨rW, rW_spec, ?_⟩
    intro m hm
    simp only [runModels, envW, List.mem_cons, List.not_mem_nil, or_false] at hm
    rcases hm with rfl | rfl | rfl | rfl <;> exact ⟨rfl, ⟨([0], [1]), rfl⟩⟩
  exact ⟨hyp, C2_benchmark_loop envW dW hyp⟩

/-- Witness for C3: one test point with positive predicted variance. -/
theorem C3_witness :
    (∀ v ∈ [(1 : ℝ)], 0 < v) ∧
    ((calculate_metrics [0] [0] [1]).r2 =
      1 - (List.zipWith (fun a b => (a - b) ^ 2) ([0] : Vec) [0]).sum /
        ((([0] : Vec)).map
          (fun a => (a - (([0] : Vec)).sum / (([0] : Vec)).length) ^ 2)).sum ∧
     (calculate_metrics [0] [0] [1]).rmse =
      Real.sqrt ((List.zipWith (fun a b => (a - b) ^ 2) ([0] : Vec) [0]).sum /
        (([0] : Vec)).length) ∧
     (calculate_metrics [0] [0] [1]).mnll =
      -(zipWith3 (fun y m v => gaussLogDensity y m (Real.sqrt v))
          ([0] : Vec) [0] [1]).sum / (([0] : Vec)).length) :=
  ⟨by simp, C3_metric_formulas [0] [0] [1] (by simp)⟩

/-- Witness for C4: the concrete run has do_x_scaling off, and its inputs
are returned unscaled. -/
theorem C4_witness :
    generateData dW fsW tsW gsW xrW = some rW ∧
    dW.do_x_scaling = false ∧
    rW.X = tsW := by
  refine ⟨rW_spec, rfl, ?_⟩
  have h := (C4_input_scaling dW fsW tsW gsW xrW rW rW_spec).2 rfl
  refine h.2.1 ?_
  intro m hm row hrow
  simp only [tsW, List.mem_cons, List.not_mem_nil, or_false] at hm
  rcases hm with rfl | rfl
  · simp only [List.mem_cons, List.not_mem_nil, or_false] at hrow
    rcases hrow with rfl | rfl <;> simp [tsW]
  · simp only [List.mem_cons, List.not_mem_nil, or_false] at hrow
    subst hrow
    simp [tsW]

/-- Witness for C5: the concrete run's test rows all end in the highest
fidelity index. -/
theorem C5_witness :
    generateData dW fsW tsW gsW xrW = some rW ∧
    (rW.x_test = (matDivRows xrW (scalings dW tsW)).map
      (fun row => row ++ [i_highest_fidelity dW]) ∧
     i_highest_fidelity dW = (((dW.num_data.length : ℤ) - 1 : ℤ) : ℝ) ∧
     ∀ row ∈ rW.x_test, row.getLast? = some (i_highest_fidelity dW)) :=
  ⟨rW_spec, C5_test_fidelity_column dW fsW tsW gsW xrW rW rW_spec⟩

/-- Witness for C6: the all-ones scalings of the concrete run are nowhere
zero, so the scaled inputs round-trip. -/
theorem C6_witness :
    generateData dW fsW tsW gsW xrW = some rW ∧
    fsW.getLast? = some fW ∧
    (∀ x ∈ scalings dW tsW, x ≠ 0) ∧
    ((∀ i, i < rW.X.length →
        matMulRows (rW.X.getD i []) (scalings dW tsW) = tsW.getD i []) ∧
     matMulRows (matDivRows xrW (scalings dW tsW)) (scalings dW tsW) = xrW ∧
     rW.y_test = (fW xrW).map (fun y => y / dW.y_scale)) := by
  have hnz : ∀ x ∈ scalings dW tsW, x ≠ 0 := by
    rw [scalW]
    intro x hx
    simp only [List.mem_cons, List.not_mem_nil, or_false] at hx
    rcases hx with rfl | rfl <;> exact one_ne_zero
  have hts : ∀ m ∈ tsW, ∀ row ∈ m, row.length ≤ (scalings dW tsW).length := by
    rw [scalW]
    intro m hm row hrow
    simp only [tsW, List.mem_cons, List.not_mem_nil, or_false] at hm
    rcases hm with rfl | rfl
    · simp only [List.mem_cons, List.not_mem_nil, or_false] at hrow
      rcases hrow with rfl | rfl <;> simp
    · simp only [List.mem_cons, List.not_mem_nil, or_false] at hrow
      subst hrow
      simp
  have hxr : ∀ row ∈ xrW, row.length ≤ (scalings dW tsW).length := by
    rw [scalW]
    intro row hrow
    simp only [xrW, List.mem_cons, List.not_mem_nil, or_false] at hrow
    subst hrow
    simp
  exact ⟨rW_spec, rfl, hnz,
    C6_scaling_roundtrip dW fsW tsW gsW xrW rW rW_spec fW rfl hnz hts hxr⟩

/-- Witness for C7: a one-run, one-model table. -/
theorem C7_witness :
    "hf_gp" ∈ (runsW.headD []).map Prod.fst ∧
    (print_metrics runsW).lookup "hf_gp" = some
      [(runsW.map fun run => (lookupRun run "hf_gp").r2).sum / runsW.length,
       (runsW.map fun run => (lookupRun run "hf_gp").mnll).sum / runsW.length,
       (runsW.map fun run => (lookupRun run "hf_gp").rmse).sum / runsW.length] :=
  ⟨by simp [runsW], C7_running_averages runsW "hf_gp" (by simp [runsW])⟩

/-- Witness for C8: one good model, then a model whose optimize raises,
and an environment whose first run therefore fails. -/
theorem C8_witness :
    (∀ m ∈ [mBeh "a"], modelOk m ([] : Mat)) ∧
    badBeh.optimize = Except.error "boom" ∧
    123 ∈ seeds ∧
    ¬ exceptOk (test_function envFailW dW 123).2 ∧
    ((benchmark_models ([mBeh "a"] ++ badBeh :: []) ([] : Mat) ([] : Vec)).2 =
      Except.error ("boom", successMetrics [mBeh "a"] ([] : Mat) ([] : Vec)) ∧
     ¬ exceptOk (do_benchmark envFailW dW).2) := by
  have hpre : ∀ m ∈ [mBeh "a"], modelOk m ([] : Mat) := by
    intro m hm
    simp only [List.mem_cons, List.not_mem_nil, or_false] at hm
    subst hm
    exact ⟨rfl, ⟨([0], [1]), rfl⟩⟩
  have hfail : ¬ exceptOk (test_function envFailW dW 123).2 := by
    rintro ⟨a, ha⟩
    rw [show (test_function envFailW dW 123).2 = Except.error "boom" from rfl] at ha
    exact Except.noConfusion ha
  exact ⟨hpre, rfl, by decide, hfail,
    C8_no_error_recovery ([] : Mat) ([] : Vec) [mBeh "a"] badBeh [] "boom" hpre
      (Or.inl rfl) envFailW dW 123 (by decide) hfail⟩

/-- Witness for C9: the concrete run's test targets. -/
theorem C9_witness :
    generateData dW fsW tsW gsW xrW = some rW ∧
    fsW.getLast? = some fW ∧
    rW.y_test = (fW (matMulRows (matDivRows xrW (scalings dW tsW))
      (scalings dW tsW))).map (fun y => y / dW.y_scale) :=
  ⟨rW_spec, rfl, C9_test_targets_noise_free dW fsW tsW gsW xrW rW rW_spec fW rfl⟩

/-- Witness for C10: a single-fidelity descriptor builds everything and
then fails on the X[1] access. -/
theorem C10_witness :
    d1W.num_data.length = 1 ∧ ts1W.length = d1W.num_data.length ∧ fsW ≠ [] ∧
    ((∃ r0, generateDataCore d1W fsW ts1W gsW xrW = some r0) ∧
     generateData d1W fsW ts1W gsW xrW = none) :=
  ⟨by decide, by decide, by simp [fsW],
    C10_single_fidelity_raises d1W fsW ts1W gsW xrW (by decide) (by decide)
      (by simp [fsW])⟩

end

end MultiFidelityDgpBench
